import Mathlib

/-!
Verification of the core of the Boost.URL view layer (`url_view_base`,
`url_impl`, the path/query rules and the grammar token rule) against its
specification. URLs are byte strings; we embed buffers as `List Char`
where each `Char` stands for one byte of the encoded buffer.

Functions whose bodies appear in the repository headers
(`detail/impl/url_impl.ipp`, `grammar/token.hpp`, inline members of
`url_view_base.hpp`, the initializer of `sub_delim_chars`) are translated
directly.  Functions of the repository whose bodies are not in the
provided sources (the top-level RFC parsers, `detail::path_segments`,
`port_rule`, `compare`, `lut_chars`, the `params` lookup implementations)
are modelled from the specification; each such definition carries a
doc comment saying so.
-/

namespace BoostUrl

/-- ASCII decimal digit test. -/
def isDigitChar (c : Char) : Bool :=
  '0' ≤ c && c ≤ '9'

/-- ASCII hexadecimal digit test. -/
def isHexChar (c : Char) : Bool :=
  ('0' ≤ c && c ≤ '9') || ('A' ≤ c && c ≤ 'F') || ('a' ≤ c && c ≤ 'f')

/-- Numeric value of a hexadecimal digit. -/
def hexVal (c : Char) : Nat :=
  if '0' ≤ c && c ≤ '9' then c.toNat - 48
  else if 'A' ≤ c && c ≤ 'F' then c.toNat - 55
  else c.toNat - 87

/-- ASCII lower-casing of one character. -/
def toLowerChar (c : Char) : Char :=
  if 'A' ≤ c && c ≤ 'Z' then Char.ofNat (c.toNat + 32) else c

/-- ASCII upper-casing of one character. -/
def toUpperChar (c : Char) : Char :=
  if 'a' ≤ c && c ≤ 'z' then Char.ofNat (c.toNat - 32) else c

/-- ASCII lower-casing of a string. -/
def lowerStr (s : List Char) : List Char :=
  s.map toLowerChar

/-- RFC 3986 unreserved characters: ALPHA / DIGIT / `-` / `.` / `_` / `~`. -/
def isUnreservedChar (c : Char) : Bool :=
  ('a' ≤ c && c ≤ 'z') || ('A' ≤ c && c ≤ 'Z') ||
  ('0' ≤ c && c ≤ '9') || c = '-' || c = '.' || c = '_' || c = '~'

/-- Split a character list at every occurrence of `sep`; the result is
always non-empty and joining it back with `sep` gives the input. -/
def splitOnChar (sep : Char) : List Char → List (List Char)
  | [] => [[]]
  | c :: r =>
    if c = sep then [] :: splitOnChar sep r
    else
      match splitOnChar sep r with
      | [] => [[c]]
      | h :: t => (c :: h) :: t

/-- Validating percent-decoding: each `%` must be followed by two hex
digits, which decode to a single byte; all other characters pass through.
Returns `none` on a malformed escape. -/
def pctDecode : List Char → Option (List Char)
  | [] => some []
  | '%' :: a :: b :: r =>
    if isHexChar a && isHexChar b then
      (pctDecode r).map (fun d => Char.ofNat (hexVal a * 16 + hexVal b) :: d)
    else none
  | '%' :: _ => none
  | c :: r => (pctDecode r).map (fun d => c :: d)

/-- Number of bytes a percent-encoded string produces after decoding;
each `%HH` triplet counts as one byte (`pct_string_view::decoded_size`,
which assumes a valid percent-encoding). -/
def pctDecodedSize : List Char → Nat
  | [] => 0
  | '%' :: _ :: _ :: r => 1 + pctDecodedSize r
  | _ :: r => 1 + pctDecodedSize r

/-- Modelled from the spec: RFC 3986 §6.2.2 syntax-based normalization of
one percent-encoded component, as used by `url_view_base::compare` (whose
body is not among the provided sources): percent triplets whose decoded
byte is unreserved are decoded, all other triplets have their hex digits
upper-cased, plain characters pass through. -/
def normPct : List Char → List Char
  | [] => []
  | '%' :: a :: b :: r =>
    let v := Char.ofNat (hexVal a * 16 + hexVal b)
    if isUnreservedChar v then v :: normPct r
    else '%' :: toUpperChar a :: toUpperChar b :: normPct r
  | c :: r => c :: normPct r

/-- The classification of the host production (`host_type`). -/
inductive HostType where
  | none
  | name
  | ipv4
  | ipv6
  | ipvfuture
deriving DecidableEq

/-- Well-known scheme identifiers (`urls::scheme`). -/
inductive SchemeId where
  | none
  | unknown
  | ftp
  | file
  | http
  | https
  | ws
  | wss
  | mailto
  | urn
deriving DecidableEq

/-- Modelled from the spec: `string_to_scheme` (body not among the
provided sources) looks up the lower-cased spelling in the fixed
well-known table, yielding `unknown` for an unrecognised scheme. -/
def stringToScheme (s : List Char) : SchemeId :=
  let t := lowerStr s
  if t = [ 'f', 't', 'p' ] then .ftp
  else if t = [ 'f', 'i', 'l', 'e' ] then .file
  else if t = [ 'h', 't', 't', 'p' ] then .http
  else if t = [ 'h', 't', 't', 'p', 's' ] then .https
  else if t = [ 'w', 's' ] then .ws
  else if t = [ 'w', 's', 's' ] then .wss
  else if t = [ 'm', 'a', 'i', 'l', 't', 'o' ] then .mailto
  else if t = [ 'u', 'r', 'n' ] then .urn
  else .unknown

/-- The index-table record of an authority-scope view
(`detail::url_impl` with `is_authority = true`): part lengths of the
four authority parts, their decoded sizes, the host classification,
the parsed IP octets and the port number. -/
structure AuthorityImpl where
  lenUser : Nat
  lenPass : Nat
  lenHost : Nat
  lenPort : Nat
  decodedUser : Nat
  decodedPass : Nat
  decodedHost : Nat
  hostType : HostType
  ipAddr : List Nat
  portNumber : Nat
deriving DecidableEq

/-- Zero-initialised authority record. -/
def AuthorityImpl.init : AuthorityImpl :=
  { lenUser := 0, lenPass := 0, lenHost := 0, lenPort := 0
    decodedUser := 0, decodedPass := 0, decodedHost := 0
    hostType := .none, ipAddr := [], portNumber := 0 }

/-- `url_impl::apply_userinfo` (authority scope): the user part length is
the user's encoded size; the pass part is the password's encoded size
plus 2 for the leading `:` and trailing `@` when a password is supplied,
and 1 for the trailing `@` alone when it is not. -/
def applyUserinfo (a : AuthorityImpl) (user : List Char)
    (passOpt : Option (List Char)) : AuthorityImpl :=
  match passOpt with
  | some pw =>
    { a with lenUser := user.length, decodedUser := pctDecodedSize user
             lenPass := pw.length + 2, decodedPass := pctDecodedSize pw }
  | none =>
    { a with lenUser := user.length, decodedUser := pctDecodedSize user
             lenPass := 1 }

/-- `url_impl::apply_host` (authority scope). -/
def applyHost (a : AuthorityImpl) (ht : HostType) (s : List Char)
    (addr : List Nat) : AuthorityImpl :=
  { a with hostType := ht, lenHost := s.length
           decodedHost := pctDecodedSize s, ipAddr := addr }

/-- `url_impl::apply_port` (authority scope): the port part length
includes the leading `:`. -/
def applyPort (a : AuthorityImpl) (s : List Char) (pn : Nat) : AuthorityImpl :=
  { a with portNumber := pn, lenPort := 1 + s.length }

/-- The index-table record of a full URL view (`detail::url_impl`):
the buffer, the eight part lengths, decoded sizes, and side channels. -/
structure UrlImpl where
  cs : List Char
  lenScheme : Nat
  lenUser : Nat
  lenPass : Nat
  lenHost : Nat
  lenPort : Nat
  lenPath : Nat
  lenQuery : Nat
  lenFrag : Nat
  decodedUser : Nat
  decodedPass : Nat
  decodedHost : Nat
  decodedPath : Nat
  decodedQuery : Nat
  decodedFrag : Nat
  schemeId : SchemeId
  hostType : HostType
  ipAddr : List Nat
  portNumber : Nat
  nseg : Nat
  nparam : Nat
deriving DecidableEq

/-- Zero-initialised URL record over a given buffer. -/
def UrlImpl.init (cs : List Char) : UrlImpl :=
  { cs := cs
    lenScheme := 0, lenUser := 0, lenPass := 0, lenHost := 0
    lenPort := 0, lenPath := 0, lenQuery := 0, lenFrag := 0
    decodedUser := 0, decodedPass := 0, decodedHost := 0
    decodedPath := 0, decodedQuery := 0, decodedFrag := 0
    schemeId := .none, hostType := .none, ipAddr := []
    portNumber := 0, nseg := 0, nparam := 0 }

/-- `url_impl::apply_scheme`: the scheme part length includes the
trailing `:`. -/
def applyScheme (u : UrlImpl) (s : List Char) : UrlImpl :=
  { u with schemeId := stringToScheme s, lenScheme := s.length + 1 }

/-- `url_impl::apply_authority` (URL scope): the user part grows by 2
for the leading `//`, every other authority field is copied from the
authority-scope record. -/
def applyAuthority (u : UrlImpl) (a : AuthorityImpl) : UrlImpl :=
  { u with lenUser := a.lenUser + 2, lenPass := a.lenPass
           decodedUser := a.decodedUser, decodedPass := a.decodedPass
           hostType := a.hostType, portNumber := a.portNumber
           lenHost := a.lenHost, lenPort := a.lenPort
           ipAddr := a.ipAddr, decodedHost := a.decodedHost }

/-- Modelled from the spec: `detail::path_segments` (body not among the
provided sources) adjusts the grammar-level segment count: an empty path
and the path `"/"` have zero segments, any other path keeps the count
reported by the path grammar rule. -/
def path_segments (s : List Char) (nseg : Nat) : Nat :=
  if s = [] then 0
  else if s = [ '/' ] then 0
  else nseg

/-- `url_impl::apply_path`. -/
def applyPath (u : UrlImpl) (s : List Char) (nseg : Nat) : UrlImpl :=
  { u with lenPath := s.length, decodedPath := pctDecodedSize s
           nseg := path_segments s nseg }

/-- `url_impl::apply_query`: the query part length includes the
leading `?`, and the parameter count is stored as given. -/
def applyQuery (u : UrlImpl) (s : List Char) (n : Nat) : UrlImpl :=
  { u with nparam := n, lenQuery := 1 + s.length
           decodedQuery := pctDecodedSize s }

/-- `url_impl::apply_frag`: the fragment part length includes the
leading `#`. -/
def applyFrag (u : UrlImpl) (s : List Char) : UrlImpl :=
  { u with lenFrag := s.length + 1, decodedFrag := pctDecodedSize s }

/-- The userinfo recognised by the authority rule: the user subcomponent
and, when the `:` separator appears, the password subcomponent. -/
structure UserinfoParts where
  userStr : List Char
  passOpt : Option (List Char)
deriving DecidableEq

/-- The pieces recognised by the authority rule. -/
structure AuthorityParts where
  uinfo : Option UserinfoParts
  hostStr : List Char
  hostKind : HostType
  hostAddr : List Nat
  portDigits : Option (List Char)
deriving DecidableEq

/-- The pieces recognised by a top-level RFC 3986 parse: optional scheme,
optional authority, path, optional query, optional fragment. -/
structure ParsedParts where
  schemeStr : Option (List Char)
  auth : Option AuthorityParts
  pathStr : List Char
  queryStr : Option (List Char)
  fragStr : Option (List Char)
deriving DecidableEq

/-- Encoded user part of an authority (no delimiter at authority scope). -/
def aPartUser (a : AuthorityParts) : List Char :=
  match a.uinfo with
  | some ui => ui.userStr
  | none => []

/-- Encoded pass part of an authority: leading `:` plus trailing `@`
when a password is present, just the trailing `@` when only a user is
present, empty when there is no userinfo. -/
def aPartPass (a : AuthorityParts) : List Char :=
  match a.uinfo with
  | some ui =>
    match ui.passOpt with
    | some pw => ':' :: (pw ++ [ '@' ])
    | none => [ '@' ]
  | none => []

/-- Encoded host part of an authority. -/
def aPartHost (a : AuthorityParts) : List Char :=
  a.hostStr

/-- Encoded port part of an authority: leading `:` plus the digits. -/
def aPartPort (a : AuthorityParts) : List Char :=
  match a.portDigits with
  | some d => ':' :: d
  | none => []

/-- Numeric value of a digit string. -/
def digitsVal (l : List Char) : Nat :=
  l.foldl (fun acc c => acc * 10 + (c.toNat - 48)) 0

/-- Modelled from the spec: the port rule (body not among the provided
sources) accumulates the digits into `port_number` with saturation — a
sequence exceeding 65535 results in the value 0. -/
def portSaturate (d : List Char) : Nat :=
  if digitsVal d ≤ 65535 then digitsVal d else 0

/-- Modelled from the spec: the element count reported by the path
grammar rules (`path_abempty_rule` and friends compose `range_rule`,
whose body is not among the provided sources; the spec says the range
combinator "reports the element count").  In every path variant each
grammar segment is preceded by `/` except a leading rootless segment,
so the count is the number of `/` characters plus one for a path that
does not start with `/`; the empty path has no segments. -/
def grammarNseg (s : List Char) : Nat :=
  match s with
  | [] => 0
  | c :: _ => s.count '/' + (if c = '/' then 0 else 1)

/-- Modelled from the spec: the parameter count computed by the second
pass over the accepted query text (body not among the provided sources):
the first parameter is always present — the empty query is one parameter
— and each `&` introduces one more. -/
def grammarNparam (q : List Char) : Nat :=
  q.count '&' + 1

/-- Modelled from the spec: the authority rule applies `apply_userinfo`
when a userinfo (terminated by `@`) is present, always applies
`apply_host`, and applies `apply_port` when a `:` port appears, with the
saturated port number. -/
def buildAuthority (a : AuthorityParts) : AuthorityImpl :=
  let s0 := AuthorityImpl.init
  let s1 :=
    match a.uinfo with
    | some ui => applyUserinfo s0 ui.userStr ui.passOpt
    | none => s0
  let s2 := applyHost s1 a.hostKind a.hostStr a.hostAddr
  match a.portDigits with
  | some d => applyPort s2 d (portSaturate d)
  | none => s2

/-- Encoded scheme part at URL scope: the scheme plus the `:`. -/
def partScheme (p : ParsedParts) : List Char :=
  match p.schemeStr with
  | some s => s ++ [ ':' ]
  | none => []

/-- Encoded user part at URL scope: the `//` marker plus the user. -/
def partUser (p : ParsedParts) : List Char :=
  match p.auth with
  | some a => '/' :: '/' :: aPartUser a
  | none => []

/-- Encoded pass part at URL scope. -/
def partPass (p : ParsedParts) : List Char :=
  match p.auth with
  | some a => aPartPass a
  | none => []

/-- Encoded host part at URL scope. -/
def partHost (p : ParsedParts) : List Char :=
  match p.auth with
  | some a => aPartHost a
  | none => []

/-- Encoded port part at URL scope. -/
def partPort (p : ParsedParts) : List Char :=
  match p.auth with
  | some a => aPartPort a
  | none => []

/-- Encoded path part at URL scope. -/
def partPath (p : ParsedParts) : List Char :=
  p.pathStr

/-- Encoded query part at URL scope: the `?` plus the query. -/
def partQuery (p : ParsedParts) : List Char :=
  match p.queryStr with
  | some q => '?' :: q
  | none => []

/-- Encoded fragment part at URL scope: the `#` plus the fragment. -/
def partFrag (p : ParsedParts) : List Char :=
  match p.fragStr with
  | some f => '#' :: f
  | none => []

/-- The input recognised by a top-level parse is exactly the
concatenation of the eight encoded parts in declared order. -/
def render (p : ParsedParts) : List Char :=
  partScheme p ++ partUser p ++ partPass p ++ partHost p ++
  partPort p ++ partPath p ++ partQuery p ++ partFrag p

/-- Modelled from the spec: a successful top-level parse (the top-level
rule bodies are not among the provided sources) fills the index table of
a zero-initialised record over the consumed input by calling, in order,
`apply_scheme` when a scheme is present, `apply_authority` when the `//`
marker is present, `apply_path` with the grammar segment count,
`apply_query` with the parameter count when a `?` is present, and
`apply_frag` when a `#` is present. -/
def buildUrl (p : ParsedParts) : UrlImpl :=
  let u0 := UrlImpl.init (render p)
  let u1 :=
    match p.schemeStr with
    | some s => applyScheme u0 s
    | none => u0
  let u2 :=
    match p.auth with
    | some a => applyAuthority u1 (buildAuthority a)
    | none => u1
  let u3 := applyPath u2 p.pathStr (grammarNseg p.pathStr)
  let u4 :=
    match p.queryStr with
    | some q => applyQuery u3 q (grammarNparam q)
    | none => u3
  match p.fragStr with
  | some f => applyFrag u4 f
  | none => u4

/-- The part lengths in declared order
(scheme, user, pass, host, port, path, query, fragment). -/
def UrlImpl.lensList (u : UrlImpl) : List Nat :=
  [ u.lenScheme, u.lenUser, u.lenPass, u.lenHost,
    u.lenPort, u.lenPath, u.lenQuery, u.lenFrag ]

/-- Modelled from the spec: the offset of part `i` is the sum of all
prior parts' lengths (`url_impl::offset`, body not among the provided
sources). -/
def UrlImpl.offsetN (u : UrlImpl) (i : Nat) : Nat :=
  (u.lensList.take i).sum

/-- `url_view_base::size`: the offset of the end part, which is the sum
of all eight part lengths. -/
def UrlImpl.size (u : UrlImpl) : Nat :=
  u.offsetN 8

/-- The encoded slice of part `i`: `len i` characters of the buffer
starting at `offset i`, delimiters included. -/
def UrlImpl.partSlice (u : UrlImpl) (i : Nat) : List Char :=
  (u.cs.drop (u.offsetN i)).take (u.lensList.getD i 0)

/-- The concatenation of the eight encoded part slices in declared
order. -/
def partsConcat (u : UrlImpl) : List Char :=
  u.partSlice 0 ++ u.partSlice 1 ++ u.partSlice 2 ++ u.partSlice 3 ++
  u.partSlice 4 ++ u.partSlice 5 ++ u.partSlice 6 ++ u.partSlice 7

/-- `url_view_base::string`: the buffer characters from `data()` up to
`size()`. -/
def UrlImpl.stringOf (u : UrlImpl) : List Char :=
  u.cs.take u.size

/-- `url_view_base::has_authority`: `u_.len(id_user) > 0`. -/
def hasAuthority (u : UrlImpl) : Bool :=
  u.lenUser > 0

/-- Modelled from the spec: `url_view_base::has_password` (body not
among the provided sources) tests `len[pass] ≥ 2`. -/
def hasPassword (u : UrlImpl) : Bool :=
  2 ≤ u.lenPass

/-- Modelled from the spec: `url_view_base::has_port` (body not among
the provided sources) tests `len[port] > 0`. -/
def hasPort (u : UrlImpl) : Bool :=
  u.lenPort > 0

/-- Modelled from the spec: `url_view_base::has_query` (body not among
the provided sources) tests `len[query] ≥ 1`. -/
def hasQuery (u : UrlImpl) : Bool :=
  1 ≤ u.lenQuery

/-- Modelled from the spec: `url_view_base::port` (body not among the
provided sources) returns the port part without its leading `:`, the
literal digit string. -/
def portStrOf (u : UrlImpl) : List Char :=
  (u.partSlice 4).drop 1

/-- Modelled from the spec: `url_view_base::port_number` (body not
among the provided sources) returns the stored 16-bit port number. -/
def portNumberOf (u : UrlImpl) : Nat :=
  u.portNumber

/-- `params_encoded_base::empty`: documented effects are
`return ! this->url().has_query()`. -/
def paramsEmptyB (u : UrlImpl) : Bool :=
  ! hasQuery u

/-- Modelled from the spec: `params_encoded_base::size` (body not among
the provided sources) returns the stored parameter count. -/
def paramsSizeOf (u : UrlImpl) : Nat :=
  u.nparam

/-- Modelled from the spec: the sequence of encoded segments yielded by
`segments()` / `encoded_segments()` (iterator bodies not among the
provided sources): the empty path and the path `"/"` yield the empty
sequence; otherwise a leading `/` is dropped and the remainder is split
at every `/`, so a trailing `/` yields a trailing empty segment. -/
def segmentsOf (s : List Char) : List (List Char) :=
  if s = [] then []
  else if s = [ '/' ] then []
  else if s.head? = some '/' then splitOnChar '/' s.tail
  else splitOnChar '/' s

/-- The segment-counting rule exactly as the claim states it, for
comparison with the code model: maximal runs between `/` boundaries
where a leading `/` does not introduce a leading empty segment and a
trailing `/` does not introduce a trailing empty segment. -/
def specSegCount (s : List Char) : Nat :=
  if s = [] then 0
  else if s = [ '/' ] then 0
  else
    let p1 := splitOnChar '/' s
    let p2 := if s.head? = some '/' then p1.tail else p1
    let p3 := if s.getLast? = some '/' then p2.dropLast else p2
    p3.length

/-- The amended segment-counting rule: as the claim, except that a
trailing `/` does introduce a trailing empty segment. -/
def amendedSegCount (s : List Char) : Nat :=
  if s = [] then 0
  else if s = [ '/' ] then 0
  else
    let p1 := splitOnChar '/' s
    (if s.head? = some '/' then p1.tail else p1).length

/-- `grammar::token<CharSet>::parse`: clears the error, advances the
cursor with `find_if_not` (modelled as `dropWhile`, the first position
whose character is not in the set), records the consumed characters and
returns `true`.  The result is (success, matched, remaining input). -/
def tokenParse (cset : Char → Bool) (input : List Char) :
    Bool × List Char × List Char :=
  (true, input.takeWhile cset, input.dropWhile cset)

/-- The initializer string of `sub_delim_chars`:
`"!$&()*+,;=\x27"` (the `\x27` escape is the apostrophe). -/
def subDelimInit : List Char :=
  [ '!', '$', '&', '(', ')', '*', '+', ',', ';', '=', Char.ofNat 39 ]

/-- Modelled from the spec: `grammar::lut_chars` (body not among the
provided sources) is the 256-entry lookup-table character set whose
members are exactly the characters of the initializer string. -/
def lutMember (init : List Char) (b : Nat) : Bool :=
  init.any (fun c => c.toNat == b)

/-- The `sub_delim_chars` character set as a predicate on byte
values. -/
def sub_delim_chars (b : Nat) : Bool :=
  lutMember subDelimInit b

/-- Case folding used by `ignore_case` comparisons. -/
def foldCase (ic : Bool) (l : List Char) : List Char :=
  if ic then lowerStr l else l

/-- The encoded parameters of a query string: splitting at every `&`
(the first parameter is always present, even for the empty query). -/
def queryParams (q : List Char) : List (List Char) :=
  splitOnChar '&' q

/-- The encoded key of one `key[=value]` parameter: the characters up to
the first `=`. -/
def keyOfParam (kv : List Char) : List Char :=
  kv.takeWhile (fun c => c ≠ '=')

/-- Modelled from the spec: the key comparison of the `params` lookup
operations (bodies not among the provided sources): the stored key is
percent-decoded and compared with the already-decoded supplied key,
case-folded when `ignore_case` is requested. -/
def keyMatches (ic : Bool) (dk storedKey : List Char) : Bool :=
  match pctDecode storedKey with
  | some sdk => foldCase ic sdk == foldCase ic dk
  | none => false

/-- The parameter predicate used by every lookup: does this
`key[=value]` parameter's stored key match the decoded supplied key. -/
def keyPred (ic : Bool) (dk : List Char) : List Char → Bool :=
  fun kv => keyMatches ic dk (keyOfParam kv)

/-- Modelled from the spec: `params_encoded_base::contains` (body not
among the provided sources).  The supplied key is percent-decoded first;
a malformed escape is a parse error, reported as `Except.error`, never a
"not found". -/
def paramsContains (q key : List Char) (ic : Bool) : Except Unit Bool :=
  match pctDecode key with
  | none => Except.error ()
  | some dk =>
    Except.ok ((queryParams q).any (keyPred ic dk))

/-- Modelled from the spec: `params_encoded_base::count` (body not
among the provided sources). -/
def paramsCount (q key : List Char) (ic : Bool) : Except Unit Nat :=
  match pctDecode key with
  | none => Except.error ()
  | some dk =>
    Except.ok (((queryParams q).filter (keyPred ic dk)).length)

/-- Modelled from the spec: `params_encoded_base::find` (body not among
the provided sources), returning the position of the first matching
parameter. -/
def paramsFind (q key : List Char) (ic : Bool) : Except Unit (Option Nat) :=
  match pctDecode key with
  | none => Except.error ()
  | some dk =>
    Except.ok ((queryParams q).findIdx? (keyPred ic dk))

/-- Modelled from the spec: `params_encoded_base::find(from, key)` (body
not among the provided sources), searching forward from position
`from`. -/
def paramsFindFrom (q key : List Char) (ic : Bool) (from' : Nat) :
    Except Unit (Option Nat) :=
  match pctDecode key with
  | none => Except.error ()
  | some dk =>
    Except.ok ((((queryParams q).drop from').findIdx?
      (keyPred ic dk)).map (fun i => from' + i))

/-- Modelled from the spec: `params_encoded_base::find_last` (body not
among the provided sources), returning the position of the last matching
parameter. -/
def paramsFindLast (q key : List Char) (ic : Bool) : Except Unit (Option Nat) :=
  match pctDecode key with
  | none => Except.error ()
  | some dk =>
    Except.ok (((queryParams q).reverse.findIdx? (keyPred ic dk)).map
      (fun i => (queryParams q).length - 1 - i))

/-- Modelled from the spec: the normalization key `url_view_base::compare`
(body not among the provided sources) compares by — the scheme slice
case-folded, then each subsequent part slice with percent triplets
normalized, the host additionally case-folded, in declared part order. -/
def compareKey (u : UrlImpl) : List (List Char) :=
  [ lowerStr (u.partSlice 0),
    normPct (u.partSlice 1),
    normPct (u.partSlice 2),
    lowerStr (normPct (u.partSlice 3)),
    u.partSlice 4,
    normPct (u.partSlice 5),
    normPct (u.partSlice 6),
    normPct (u.partSlice 7) ]

/-- Modelled from the spec: `url_view_base::compare` returns −1, 0 or 1
as the normalized forms compare lexicographically. -/
def urlCompare (u v : UrlImpl) : Int :=
  if compareKey u < compareKey v then -1
  else if compareKey v < compareKey u then 1
  else 0

/-- `operator==`: `u0.compare(u1) == 0`. -/
def urlEqB (u v : UrlImpl) : Bool :=
  urlCompare u v == 0

/-- `operator!=`: `!(u0 == u1)`. -/
def urlNeB (u v : UrlImpl) : Bool :=
  ! urlEqB u v

/-- `operator<`: `u0.compare(u1) < 0`. -/
def urlLtB (u v : UrlImpl) : Bool :=
  decide (urlCompare u v < 0)

/-- `operator<=`: `u0.compare(u1) <= 0`. -/
def urlLeB (u v : UrlImpl) : Bool :=
  decide (urlCompare u v ≤ 0)

/-- `operator>`: `u0.compare(u1) > 0`. -/
def urlGtB (u v : UrlImpl) : Bool :=
  decide (urlCompare u v > 0)

/-- `operator>=`: `u0.compare(u1) >= 0`. -/
def urlGeB (u v : UrlImpl) : Bool :=
  decide (urlCompare u v ≥ 0)

/-- The eight encoded parts of a parse in declared order. -/
def chunks (p : ParsedParts) : List (List Char) :=
  [ partScheme p, partUser p, partPass p, partHost p,
    partPort p, partPath p, partQuery p, partFrag p ]

/-- Exemplar: the relative reference `/a/` (a path with a trailing
slash). -/
def pTrailingSlash : ParsedParts :=
  { schemeStr := none, auth := none
    pathStr := [ '/', 'a', '/' ], queryStr := none, fragStr := none }

/-- Exemplar: the empty relative reference. -/
def pEmpty : ParsedParts :=
  { schemeStr := none, auth := none
    pathStr := [], queryStr := none, fragStr := none }

/-- Exemplar: `http://h:99999/` (port overflowing 16 bits). -/
def pPortBig : ParsedParts :=
  { schemeStr := some [ 'h', 't', 't', 'p' ]
    auth := some
      { uinfo := none, hostStr := [ 'h' ], hostKind := .name
        hostAddr := [], portDigits := some [ '9', '9', '9', '9', '9' ] }
    pathStr := [ '/' ], queryStr := none, fragStr := none }

/-- Exemplar: `http://h:8080/` (representable port). -/
def pPortSmall : ParsedParts :=
  { schemeStr := some [ 'h', 't', 't', 'p' ]
    auth := some
      { uinfo := none, hostStr := [ 'h' ], hostKind := .name
        hostAddr := [], portDigits := some [ '8', '0', '8', '0' ] }
    pathStr := [ '/' ], queryStr := none, fragStr := none }

/-- Exemplar: `//u:pw@h/` (authority with user and password). -/
def pUserPass : ParsedParts :=
  { schemeStr := none
    auth := some
      { uinfo := some { userStr := [ 'u' ], passOpt := some [ 'p', 'w' ] }
        hostStr := [ 'h' ], hostKind := .name
        hostAddr := [], portDigits := none }
    pathStr := [ '/' ], queryStr := none, fragStr := none }

/-- Exemplar: `?k=v&x` as a relative reference with a two-parameter
query. -/
def pQueryTwo : ParsedParts :=
  { schemeStr := none, auth := none
    pathStr := [], queryStr := some [ 'k', '=', 'v', '&', 'x' ]
    fragStr := none }

/-- Exemplar: `?` as a relative reference with an empty query. -/
def pQueryEmpty : ParsedParts :=
  { schemeStr := none, auth := none
    pathStr := [], queryStr := some [], fragStr := none }

/-! ### Helper lemmas -/

theorem splitOnChar_ne_nil (sep : Char) (l : List Char) :
    splitOnChar sep l ≠ [] := by
  cases l with
  | nil => simp [splitOnChar]
  | cons c r =>
    by_cases h : c = sep
    · simp [splitOnChar, h]
    · simp only [splitOnChar, if_neg h]
      cases hs : splitOnChar sep r <;> simp

theorem splitOnChar_length (sep : Char) (l : List Char) :
    (splitOnChar sep l).length = l.count sep + 1 := by
  induction l with
  | nil => simp [splitOnChar]
  | cons c r ih =>
    by_cases h : c = sep
    · subst h
      simp [splitOnChar, List.count_cons, ih]
    · simp only [splitOnChar, if_neg h]
      have h2 : sep ≠ c := fun e => h e.symm
      cases hs : splitOnChar sep r with
      | nil => exact absurd hs (splitOnChar_ne_nil sep r)
      | cons x t =>
        have hlen := ih
        rw [hs] at hlen
        simp only [List.length_cons] at hlen ⊢
        simp [List.count_cons, h, h2]
        omega

theorem flatten_drop_sumLen (cs : List (List Char)) (k : Nat) :
    cs.flatten.drop (((cs.take k).map List.length).sum) =
      (cs.drop k).flatten := by
  induction cs generalizing k with
  | nil => simp
  | cons c t ih =>
    cases k with
    | zero => simp
    | succ k =>
      simp only [List.take_succ_cons, List.map_cons, List.sum_cons,
        List.flatten_cons, List.drop_succ_cons]
      rw [List.drop_append, ih]

theorem buildAuthority_lenUser (a : AuthorityParts) :
    (buildAuthority a).lenUser = (aPartUser a).length := by
  rcases a with ⟨ui, hs, hk, ha, pd⟩
  rcases ui with _ | ⟨us, po⟩
  · cases pd <;>
      simp [buildAuthority, aPartUser, applyUserinfo, applyHost, applyPort,
        AuthorityImpl.init]
  · cases po <;> cases pd <;>
      simp [buildAuthority, aPartUser, applyUserinfo, applyHost, applyPort,
        AuthorityImpl.init] <;> try omega

theorem buildAuthority_lenPass (a : AuthorityParts) :
    (buildAuthority a).lenPass = (aPartPass a).length := by
  rcases a with ⟨ui, hs, hk, ha, pd⟩
  rcases ui with _ | ⟨us, po⟩
  · cases pd <;>
      simp [buildAuthority, aPartPass, applyUserinfo, applyHost, applyPort,
        AuthorityImpl.init]
  · cases po <;> cases pd <;>
      simp [buildAuthority, aPartPass, applyUserinfo, applyHost, applyPort,
        AuthorityImpl.init] <;> try omega

theorem buildAuthority_lenHost (a : AuthorityParts) :
    (buildAuthority a).lenHost = (aPartHost a).length := by
  rcases a with ⟨ui, hs, hk, ha, pd⟩
  rcases ui with _ | ⟨us, po⟩
  · cases pd <;>
      simp [buildAuthority, aPartHost, applyUserinfo, applyHost, applyPort,
        AuthorityImpl.init]
  · cases po <;> cases pd <;>
      simp [buildAuthority, aPartHost, applyUserinfo, applyHost, applyPort,
        AuthorityImpl.init] <;> try omega

theorem buildAuthority_lenPort (a : AuthorityParts) :
    (buildAuthority a).lenPort = (aPartPort a).length := by
  rcases a with ⟨ui, hs, hk, ha, pd⟩
  rcases ui with _ | ⟨us, po⟩
  · cases pd <;>
      simp [buildAuthority, aPartPort, applyUserinfo, applyHost, applyPort,
        AuthorityImpl.init] <;> try omega
  · cases po <;> cases pd <;>
      simp [buildAuthority, aPartPort, applyUserinfo, applyHost, applyPort,
        AuthorityImpl.init] <;> try omega

theorem buildAuthority_hostType (a : AuthorityParts) :
    (buildAuthority a).hostType = a.hostKind := by
  rcases a with ⟨ui, hs, hk, ha, pd⟩
  rcases ui with _ | ⟨us, po⟩
  · cases pd <;>
      simp [buildAuthority, applyUserinfo, applyHost, applyPort,
        AuthorityImpl.init]
  · cases po <;> cases pd <;>
      simp [buildAuthority, applyUserinfo, applyHost, applyPort,
        AuthorityImpl.init]

theorem buildAuthority_portNumber (a : AuthorityParts) :
    (buildAuthority a).portNumber =
      (match a.portDigits with
       | some d => portSaturate d
       | none => 0) := by
  rcases a with ⟨ui, hs, hk, ha, pd⟩
  rcases ui with _ | ⟨us, po⟩
  · cases pd <;>
      simp [buildAuthority, applyUserinfo, applyHost, applyPort,
        AuthorityImpl.init]
  · cases po <;> cases pd <;>
      simp [buildAuthority, applyUserinfo, applyHost, applyPort,
        AuthorityImpl.init]

theorem buildUrl_cs (p : ParsedParts) : (buildUrl p).cs = render p := by
  rcases p with ⟨os, oa, pa, oq, ofr⟩
  cases os <;> cases oa <;> cases oq <;> cases ofr <;>
    simp [buildUrl, render, applyScheme, applyAuthority, applyPath,
      applyQuery, applyFrag, UrlImpl.init]

theorem buildUrl_lenScheme (p : ParsedParts) :
    (buildUrl p).lenScheme = (partScheme p).length := by
  rcases p with ⟨os, oa, pa, oq, ofr⟩
  cases os <;> cases oa <;> cases oq <;> cases ofr <;>
    simp [buildUrl, partScheme, applyScheme, applyAuthority, applyPath,
      applyQuery, applyFrag, UrlImpl.init]

theorem buildUrl_lenUser (p : ParsedParts) :
    (buildUrl p).lenUser = (partUser p).length := by
  rcases p with ⟨os, oa, pa, oq, ofr⟩
  cases os <;> cases oa <;> cases oq <;> cases ofr <;>
    simp [buildUrl, partUser, applyScheme, applyAuthority, applyPath,
      applyQuery, applyFrag, UrlImpl.init, buildAuthority_lenUser] <;>
    omega

theorem buildUrl_lenPass (p : ParsedParts) :
    (buildUrl p).lenPass = (partPass p).length := by
  rcases p with ⟨os, oa, pa, oq, ofr⟩
  cases os <;> cases oa <;> cases oq <;> cases ofr <;>
    simp [buildUrl, partPass, applyScheme, applyAuthority, applyPath,
      applyQuery, applyFrag, UrlImpl.init, buildAuthority_lenPass]

theorem buildUrl_lenHost (p : ParsedParts) :
    (buildUrl p).lenHost = (partHost p).length := by
  rcases p with ⟨os, oa, pa, oq, ofr⟩
  cases os <;> cases oa <;> cases oq <;> cases ofr <;>
    simp [buildUrl, partHost, aPartHost, applyScheme, applyAuthority,
      applyPath, applyQuery, applyFrag, UrlImpl.init, buildAuthority_lenHost]

theorem buildUrl_lenPort (p : ParsedParts) :
    (buildUrl p).lenPort = (partPort p).length := by
  rcases p with ⟨os, oa, pa, oq, ofr⟩
  cases os <;> cases oa <;> cases oq <;> cases ofr <;>
    simp [buildUrl, partPort, applyScheme, applyAuthority, applyPath,
      applyQuery, applyFrag, UrlImpl.init, buildAuthority_lenPort]

theorem buildUrl_lenPath (p : ParsedParts) :
    (buildUrl p).lenPath = (partPath p).length := by
  rcases p with ⟨os, oa, pa, oq, ofr⟩
  cases os <;> cases oa <;> cases oq <;> cases ofr <;>
    simp [buildUrl, partPath, applyScheme, applyAuthority, applyPath,
      applyQuery, applyFrag, UrlImpl.init]

theorem buildUrl_lenQuery (p : ParsedParts) :
    (buildUrl p).lenQuery = (partQuery p).length := by
  rcases p with ⟨os, oa, pa, oq, ofr⟩
  cases os <;> cases oa <;> cases oq <;> cases ofr <;>
    simp [buildUrl, partQuery, applyScheme, applyAuthority, applyPath,
      applyQuery, applyFrag, UrlImpl.init] <;> omega

theorem buildUrl_lenFrag (p : ParsedParts) :
    (buildUrl p).lenFrag = (partFrag p).length := by
  rcases p with ⟨os, oa, pa, oq, ofr⟩
  cases os <;> cases oa <;> cases oq <;> cases ofr <;>
    simp [buildUrl, partFrag, applyScheme, applyAuthority, applyPath,
      applyQuery, applyFrag, UrlImpl.init]

theorem buildUrl_hostType (p : ParsedParts) :
    (buildUrl p).hostType =
      (match p.auth with
       | some a => a.hostKind
       | none => HostType.none) := by
  rcases p with ⟨os, oa, pa, oq, ofr⟩
  cases os <;> cases oa <;> cases oq <;> cases ofr <;>
    simp [buildUrl, applyScheme, applyAuthority, applyPath,
      applyQuery, applyFrag, UrlImpl.init, buildAuthority_hostType]

theorem buildUrl_portNumber (p : ParsedParts) :
    (buildUrl p).portNumber =
      (match p.auth with
       | some a =>
         match a.portDigits with
         | some d => portSaturate d
         | none => 0
       | none => 0) := by
  rcases p with ⟨os, oa, pa, oq, ofr⟩
  cases os <;> cases oa <;> cases oq <;> cases ofr <;>
    simp [buildUrl, applyScheme, applyAuthority, applyPath,
      applyQuery, applyFrag, UrlImpl.init, buildAuthority_portNumber]

theorem buildUrl_nseg (p : ParsedParts) :
    (buildUrl p).nseg = path_segments p.pathStr (grammarNseg p.pathStr) := by
  rcases p with ⟨os, oa, pa, oq, ofr⟩
  cases os <;> cases oa <;> cases oq <;> cases ofr <;>
    simp [buildUrl, applyScheme, applyAuthority, applyPath,
      applyQuery, applyFrag, UrlImpl.init]

theorem buildUrl_nparam (p : ParsedParts) :
    (buildUrl p).nparam =
      (match p.queryStr with
       | some q => grammarNparam q
       | none => 0) := by
  rcases p with ⟨os, oa, pa, oq, ofr⟩
  cases os <;> cases oa <;> cases oq <;> cases ofr <;>
    simp [buildUrl, applyScheme, applyAuthority, applyPath,
      applyQuery, applyFrag, UrlImpl.init]

theorem buildUrl_lensList (p : ParsedParts) :
    (buildUrl p).lensList = (chunks p).map List.length := by
  simp [UrlImpl.lensList, chunks, buildUrl_lenScheme, buildUrl_lenUser,
    buildUrl_lenPass, buildUrl_lenHost, buildUrl_lenPort, buildUrl_lenPath,
    buildUrl_lenQuery, buildUrl_lenFrag]

theorem render_eq_flatten (p : ParsedParts) :
    render p = (chunks p).flatten := by
  simp [render, chunks]

theorem buildUrl_partSlice (p : ParsedParts) (k : Nat) (hk : k < 8) :
    (buildUrl p).partSlice k = (chunks p).getD k [] := by
  have h8 : (chunks p).length = 8 := by simp [chunks]
  have hk8 : k < (chunks p).length := by omega
  have hkm : k < ((chunks p).map List.length).length := by
    simp [List.length_map]; omega
  unfold UrlImpl.partSlice UrlImpl.offsetN
  rw [buildUrl_lensList, buildUrl_cs, render_eq_flatten]
  rw [← List.map_take, flatten_drop_sumLen]
  rw [List.drop_eq_getElem_cons hk8]
  rw [List.flatten_cons]
  rw [List.getD_eq_getElem _ _ hkm, List.getElem_map]
  rw [List.take_left]
  rw [List.getD_eq_getElem _ _ hk8]

theorem buildUrl_slice_scheme (p : ParsedParts) :
    (buildUrl p).partSlice 0 = partScheme p := by
  rw [buildUrl_partSlice p 0 (by omega)]; simp [chunks]

theorem buildUrl_slice_user (p : ParsedParts) :
    (buildUrl p).partSlice 1 = partUser p := by
  rw [buildUrl_partSlice p 1 (by omega)]; simp [chunks]

theorem buildUrl_slice_pass (p : ParsedParts) :
    (buildUrl p).partSlice 2 = partPass p := by
  rw [buildUrl_partSlice p 2 (by omega)]; simp [chunks]

theorem buildUrl_slice_host (p : ParsedParts) :
    (buildUrl p).partSlice 3 = partHost p := by
  rw [buildUrl_partSlice p 3 (by omega)]; simp [chunks]

theorem buildUrl_slice_port (p : ParsedParts) :
    (buildUrl p).partSlice 4 = partPort p := by
  rw [buildUrl_partSlice p 4 (by omega)]; simp [chunks]

theorem buildUrl_slice_path (p : ParsedParts) :
    (buildUrl p).partSlice 5 = partPath p := by
  rw [buildUrl_partSlice p 5 (by omega)]; simp [chunks]

theorem buildUrl_slice_query (p : ParsedParts) :
    (buildUrl p).partSlice 6 = partQuery p := by
  rw [buildUrl_partSlice p 6 (by omega)]; simp [chunks]

theorem buildUrl_slice_frag (p : ParsedParts) :
    (buildUrl p).partSlice 7 = partFrag p := by
  rw [buildUrl_partSlice p 7 (by omega)]; simp [chunks]

theorem buildUrl_size (p : ParsedParts) :
    (buildUrl p).size = (render p).length := by
  unfold UrlImpl.size UrlImpl.offsetN
  rw [buildUrl_lensList]
  have h8 : (chunks p).length = 8 := by simp [chunks]
  rw [List.take_of_length_le (by simp [List.length_map]; omega)]
  rw [render_eq_flatten]
  simp [chunks, List.flatten]

theorem segmentsOf_length (s : List Char) :
    (segmentsOf s).length = path_segments s (grammarNseg s) := by
  by_cases h0 : s = []
  · simp [h0, segmentsOf, path_segments]
  by_cases h1 : s = [ '/' ]
  · simp [h0, h1, segmentsOf, path_segments]
  obtain ⟨c, r, rfl⟩ : ∃ c r, s = c :: r := by
    cases s with
    | nil => exact absurd rfl h0
    | cons c r => exact ⟨c, r, rfl⟩
  by_cases hc : c = '/'
  · subst hc
    simp [segmentsOf, h0, h1, path_segments, grammarNseg,
      splitOnChar_length, List.count_cons]
  · simp [segmentsOf, h0, h1, path_segments, grammarNseg,
      splitOnChar_length, List.count_cons, hc]

theorem takeWhile_maximal (q : Char → Bool) (m l : List Char)
    (hpre : ∃ t, m ++ t = l) (hall : ∀ c ∈ m, q c = true) :
    m.length ≤ (l.takeWhile q).length := by
  induction m generalizing l with
  | nil => simp
  | cons c m ih =>
    obtain ⟨t, rfl⟩ := hpre
    have hc : q c = true := hall c (by simp)
    simp only [List.cons_append, List.takeWhile_cons, hc, if_true,
      List.length_cons]
    have := ih (m ++ t) ⟨t, rfl⟩ (fun x hx => hall x (by simp [hx]))
    omega

theorem dropWhile_head_false (q : Char → Bool) (l : List Char) :
    ∀ c r, l.dropWhile q = c :: r → q c = false := by
  induction l with
  | nil => intro c r h; simp at h
  | cons x xs ih =>
    intro c r h
    rw [List.dropWhile_cons] at h
    by_cases hx : q x
    · rw [if_pos hx] at h
      exact ih c r h
    · rw [if_neg hx] at h
      cases h
      simpa using hx

theorem segmentsOf_amended (s : List Char) :
    (segmentsOf s).length = amendedSegCount s := by
  by_cases h0 : s = []
  · simp [h0, segmentsOf, amendedSegCount]
  by_cases h1 : s = [ '/' ]
  · simp [h0, h1, segmentsOf, amendedSegCount]
  obtain ⟨c, r, rfl⟩ : ∃ c r, s = c :: r := by
    cases s with
    | nil => exact absurd rfl h0
    | cons c r => exact ⟨c, r, rfl⟩
  by_cases hc : c = '/'
  · subst hc
    simp [segmentsOf, amendedSegCount, h0, h1, splitOnChar]
  · simp [segmentsOf, amendedSegCount, h0, h1, hc]

theorem urlCompare_eq_zero_iff (u v : UrlImpl) :
    urlCompare u v = 0 ↔ compareKey u = compareKey v := by
  unfold urlCompare
  split_ifs with h1 h2
  · exact iff_of_false (by decide) (ne_of_lt h1)
  · exact iff_of_false (by decide) (fun he => (ne_of_lt h2) he.symm)
  · exact iff_of_true rfl (le_antisymm (not_lt.mp h2) (not_lt.mp h1))

theorem urlCompare_neg_iff (u v : UrlImpl) :
    urlCompare u v < 0 ↔ compareKey u < compareKey v := by
  unfold urlCompare
  split_ifs with h1 h2
  · exact iff_of_true (by decide) h1
  · exact iff_of_false (by decide) h1
  · exact iff_of_false (by decide) h1

theorem urlCompare_pos_iff (u v : UrlImpl) :
    0 < urlCompare u v ↔ compareKey v < compareKey u := by
  unfold urlCompare
  split_ifs with h1 h2
  · exact iff_of_false (by decide) (fun h => absurd h1 (lt_asymm h))
  · exact iff_of_true (by decide) h2
  · exact iff_of_false (by decide) h2

/-! ### Claim theorems -/

/-- C1: for every input that parses successfully, concatenating the
encoded slices of all parts in the declared order (scheme, user, pass,
host, port, path, query, fragment), each part's length including its
literal delimiters, reproduces the original input byte-for-byte, and the
sum of all part lengths equals `size()`. -/
theorem claim_c1_round_trip (p : ParsedParts) :
    partsConcat (buildUrl p) = render p ∧
    (buildUrl p).lensList.sum = (buildUrl p).size ∧
    (buildUrl p).size = (render p).length ∧
    (buildUrl p).stringOf = render p := by
  refine ⟨?_, ?_, buildUrl_size p, ?_⟩
  · unfold partsConcat
    rw [buildUrl_slice_scheme, buildUrl_slice_user, buildUrl_slice_pass,
      buildUrl_slice_host, buildUrl_slice_port, buildUrl_slice_path,
      buildUrl_slice_query, buildUrl_slice_frag]
    simp [render]
  · unfold UrlImpl.size UrlImpl.offsetN
    rw [List.take_of_length_le (by simp [UrlImpl.lensList])]
  · unfold UrlImpl.stringOf
    rw [buildUrl_cs, buildUrl_size]
    exact List.take_length (render p)

/-- C2 counterexample: for the relative reference with path `"/a/"` the
stored segment count and the number of segments yielded are 2 (the
trailing `/` yields a trailing empty segment), while the claim's
counting rule — a trailing `/` does not introduce a trailing empty
segment — yields 1. -/
theorem claim_c2_counterexample :
    (buildUrl pTrailingSlash).nseg = 2 ∧
    (segmentsOf pTrailingSlash.pathStr).length = 2 ∧
    specSegCount pTrailingSlash.pathStr = 1 ∧
    (buildUrl pTrailingSlash).nseg ≠ specSegCount pTrailingSlash.pathStr := by
  refine ⟨?_, by decide, by decide, ?_⟩ <;>
    · rw [buildUrl_nseg]
      decide

/-- C2 as amended: empty path and path `"/"` yield 0 segments; otherwise
a leading `/` does not introduce a leading empty segment but a trailing
`/` does introduce a trailing empty segment; the segment count stored at
parse time equals the number of elements yielded by `segments()`. -/
theorem claim_c2_segments (p : ParsedParts) :
    (buildUrl p).nseg = (segmentsOf p.pathStr).length ∧
    (segmentsOf p.pathStr).length = amendedSegCount p.pathStr ∧
    (p.pathStr = [] → (buildUrl p).nseg = 0) ∧
    (p.pathStr = [ '/' ] → (buildUrl p).nseg = 0) := by
  have h1 : (buildUrl p).nseg = (segmentsOf p.pathStr).length := by
    rw [buildUrl_nseg, ← segmentsOf_length]
  refine ⟨h1, segmentsOf_amended p.pathStr, ?_, ?_⟩
  · intro h
    rw [h1, h]
    decide
  · intro h
    rw [h1, h]
    decide

/-- C2 witness: the amended segment law evaluated at the empty path and
at the path `"/a/"`. -/
theorem claim_c2_witness :
    (buildUrl pEmpty).nseg = 0 ∧ (buildUrl pTrailingSlash).nseg = 2 := by
  constructor
  · exact (claim_c2_segments pEmpty).2.2.1 rfl
  · rw [(claim_c2_segments pTrailingSlash).1]
    decide

/-- C3: an authority is present iff at least one of the user, pass,
host, port parts has non-zero length, equivalently iff `len[user] > 0`
(`has_authority`); with no authority, `host_kind` is `none` and all four
lengths are zero. -/
theorem claim_c3_authority (p : ParsedParts) :
    (hasAuthority (buildUrl p) = true ↔
      (0 < (buildUrl p).lenUser ∨ 0 < (buildUrl p).lenPass ∨
       0 < (buildUrl p).lenHost ∨ 0 < (buildUrl p).lenPort)) ∧
    (hasAuthority (buildUrl p) = true ↔ p.auth.isSome = true) ∧
    (hasAuthority (buildUrl p) = false →
      (buildUrl p).hostType = HostType.none ∧
      (buildUrl p).lenUser = 0 ∧ (buildUrl p).lenPass = 0 ∧
      (buildUrl p).lenHost = 0 ∧ (buildUrl p).lenPort = 0) := by
  have hu := buildUrl_lenUser p
  have hp := buildUrl_lenPass p
  have hh := buildUrl_lenHost p
  have hpo := buildUrl_lenPort p
  have hht := buildUrl_hostType p
  cases ha : p.auth with
  | some a =>
    have huser : (partUser p).length = 2 + (aPartUser a).length := by
      simp [partUser, ha]
      omega
    refine ⟨?_, ?_, ?_⟩
    · constructor
      · intro _
        left
        simp [hu, huser]
      · intro _
        simp [hasAuthority, hu, huser]
    · simp [hasAuthority, hu, huser, ha]
    · intro hfalse
      exfalso
      simp [hasAuthority, hu, huser] at hfalse
  | none =>
    have h0u : (partUser p).length = 0 := by simp [partUser, ha]
    have h0p : (partPass p).length = 0 := by simp [partPass, ha]
    have h0h : (partHost p).length = 0 := by simp [partHost, ha]
    have h0po : (partPort p).length = 0 := by simp [partPort, ha]
    refine ⟨?_, ?_, ?_⟩
    · simp [hasAuthority, hu, hp, hh, hpo, h0u, h0p, h0h, h0po]
    · simp [hasAuthority, hu, h0u, ha]
    · intro _
      refine ⟨?_, ?_, ?_, ?_, ?_⟩
      · rw [hht, ha]
      · rw [hu, h0u]
      · rw [hp, h0p]
      · rw [hh, h0h]
      · rw [hpo, h0po]

/-- C3 witness: the authority law evaluated at `http://h:99999/` (an
authority) and at the empty relative reference (no authority). -/
theorem claim_c3_witness :
    hasAuthority (buildUrl pPortBig) = true ∧
    hasAuthority (buildUrl pEmpty) = false ∧
    (buildUrl pEmpty).hostType = HostType.none := by
  have h1 := (claim_c3_authority pPortBig).2.1.mpr (by decide)
  have h2 : hasAuthority (buildUrl pEmpty) = false := by
    have := (claim_c3_authority pEmpty).2.1
    cases hb : hasAuthority (buildUrl pEmpty)
    · rfl
    · exact absurd (this.mp hb) (by decide)
  exact ⟨h1, h2, ((claim_c3_authority pEmpty).2.2 h2).1⟩

/-- C4: when the parsed port digit sequence denotes a value exceeding
65535, `port_number()` is 0 while `port()` still returns the literal
digit string and `has_port()` is true; when the value is representable
in 16 bits, `port_number()` returns it. -/
theorem claim_c4_port (p : ParsedParts) (a : AuthorityParts) (d : List Char)
    (ha : p.auth = some a) (hd : a.portDigits = some d) :
    hasPort (buildUrl p) = true ∧
    portStrOf (buildUrl p) = d ∧
    (65535 < digitsVal d → portNumberOf (buildUrl p) = 0) ∧
    (digitsVal d ≤ 65535 → portNumberOf (buildUrl p) = digitsVal d) := by
  have hlen := buildUrl_lenPort p
  have hs := buildUrl_slice_port p
  have hn := buildUrl_portNumber p
  refine ⟨?_, ?_, ?_, ?_⟩
  · simp [hasPort, hlen, partPort, ha, aPartPort, hd]
  · simp [portStrOf, hs, partPort, ha, aPartPort, hd]
  · intro h
    have hx : (buildUrl p).portNumber = portSaturate d := by
      rw [hn, ha]
      simp [hd]
    rw [portNumberOf, hx, portSaturate, if_neg (by omega)]
  · intro h
    have hx : (buildUrl p).portNumber = portSaturate d := by
      rw [hn, ha]
      simp [hd]
    rw [portNumberOf, hx, portSaturate, if_pos h]

/-- C4 witness: `http://h:99999/` saturates to 0 while keeping the
literal digits and `has_port`, and `http://h:8080/` yields 8080. -/
theorem claim_c4_witness :
    portNumberOf (buildUrl pPortBig) = 0 ∧
    portStrOf (buildUrl pPortBig) = [ '9', '9', '9', '9', '9' ] ∧
    hasPort (buildUrl pPortBig) = true ∧
    portNumberOf (buildUrl pPortSmall) = 8080 := by
  have h1 := claim_c4_port pPortBig _ _ rfl rfl
  have h2 := claim_c4_port pPortSmall _ _ rfl rfl
  refine ⟨h1.2.2.1 (by decide), h1.2.1, h1.1, ?_⟩
  rw [h2.2.2.2 (by decide)]
  decide

/-- C6: `compare` induces a total order on URL views — the derived
equality is reflexive, symmetric and transitive, `compare` is
trichotomous, strict comparison is transitive, and the operators
`==`, `!=`, `<`, `<=`, `>`, `>=` all agree with the sign of
`compare`. -/
theorem claim_c6_compare (u v w : UrlImpl) :
    (urlCompare u u = 0) ∧
    (urlCompare u v = 0 → urlCompare v u = 0) ∧
    (urlCompare u v = 0 → urlCompare v w = 0 → urlCompare u w = 0) ∧
    (urlCompare u v = -1 ∨ urlCompare u v = 0 ∨ urlCompare u v = 1) ∧
    (urlCompare u v < 0 → urlCompare v w < 0 → urlCompare u w < 0) ∧
    (urlLtB u v = true ↔ urlCompare u v < 0) ∧
    (urlEqB u v = true ↔ urlCompare u v = 0) ∧
    (urlNeB u v = true ↔ ¬ urlCompare u v = 0) ∧
    (urlLeB u v = true ↔ urlCompare u v ≤ 0) ∧
    (urlGtB u v = true ↔ 0 < urlCompare u v) ∧
    (urlGeB u v = true ↔ 0 ≤ urlCompare u v) := by
  refine ⟨?_, ?_, ?_, ?_, ?_, ?_, ?_, ?_, ?_, ?_, ?_⟩
  · exact (urlCompare_eq_zero_iff u u).mpr rfl
  · intro h
    exact (urlCompare_eq_zero_iff v u).mpr
      ((urlCompare_eq_zero_iff u v).mp h).symm
  · intro h1 h2
    exact (urlCompare_eq_zero_iff u w).mpr
      (((urlCompare_eq_zero_iff u v).mp h1).trans
        ((urlCompare_eq_zero_iff v w).mp h2))
  · unfold urlCompare
    split_ifs <;> simp
  · intro h1 h2
    exact (urlCompare_neg_iff u w).mpr
      (lt_trans ((urlCompare_neg_iff u v).mp h1)
        ((urlCompare_neg_iff v w).mp h2))
  · simp [urlLtB]
  · simp [urlEqB]
  · simp [urlNeB, urlEqB]
  · simp [urlLeB]
  · simp [urlGtB]
  · simp [urlGeB]

/-- C6 witness: the comparison laws evaluated at concrete views — the
empty reference equals itself and is distinguished from
`http://h:99999/`. -/
theorem claim_c6_witness :
    urlCompare (buildUrl pEmpty) (buildUrl pEmpty) = 0 ∧
    urlEqB (buildUrl pEmpty) (buildUrl pEmpty) = true := by
  have h := claim_c6_compare (buildUrl pEmpty) (buildUrl pEmpty)
    (buildUrl pEmpty)
  have hz := h.2.1 h.1
  exact ⟨hz, h.2.2.2.2.2.2.1.mpr hz⟩

/-- C7: after `apply_userinfo`, `len[pass]` is the password's encoded
size plus 2 when a password is supplied and 1 when it is not (so a
userinfo terminator always makes `len[pass] ≥ 1`); `has_password()` is
true iff `len[pass] ≥ 2`, and the URL-scope record copies the
authority-scope pass length unchanged. -/
theorem claim_c7_password (st : AuthorityImpl) (user pw : List Char) :
    ((applyUserinfo st user (some pw)).lenPass = pw.length + 2) ∧
    ((applyUserinfo st user none).lenPass = 1) ∧
    (∀ po : Option (List Char), 1 ≤ (applyUserinfo st user po).lenPass) ∧
    (∀ u : UrlImpl, hasPassword u = true ↔ 2 ≤ u.lenPass) ∧
    (hasPassword { UrlImpl.init [] with
      lenPass := (applyUserinfo st user (some pw)).lenPass } = true) ∧
    (hasPassword { UrlImpl.init [] with
      lenPass := (applyUserinfo st user none).lenPass } = false) ∧
    (∀ p : ParsedParts, ∀ a : AuthorityParts, p.auth = some a →
      (buildUrl p).lenPass = (buildAuthority a).lenPass) := by
  refine ⟨by simp [applyUserinfo], by simp [applyUserinfo], ?_, ?_, ?_, ?_, ?_⟩
  · intro po
    cases po <;> simp [applyUserinfo]
  · intro u
    simp [hasPassword]
  · simp [hasPassword, applyUserinfo]
  · simp [hasPassword, applyUserinfo]
  · intro p a ha
    rw [buildUrl_lenPass, buildAuthority_lenPass]
    simp [partPass, ha]

/-- C7 witness: the pass-length law evaluated at a concrete userinfo and
at the URL `//u:pw@h/`. -/
theorem claim_c7_witness :
    (applyUserinfo AuthorityImpl.init [ 'u' ] (some [ 'p', 'w' ])).lenPass
      = 4 ∧
    (buildUrl pUserPass).lenPass = 4 ∧
    hasPassword (buildUrl pUserPass) = true := by
  have h := claim_c7_password AuthorityImpl.init [ 'u' ] [ 'p', 'w' ]
  refine ⟨by rw [h.1]; decide, ?_, ?_⟩
  · rw [h.2.2.2.2.2.2 pUserPass _ rfl]
    decide
  · rw [h.2.2.2.1 (buildUrl pUserPass)]
    rw [h.2.2.2.2.2.2 pUserPass _ rfl]
    decide

/-- C5: every query-parameter lookup compares the supplied key against
stored keys as if both were percent-decoded (case-folded when
`ignore_case` is requested), and a key whose percent-encoding is invalid
yields a reported parse error from every lookup, never a "not found"
result; on a valid key the lookups agree: `contains` is the existence of
a decoded-match, `count` counts them, and `find`/`find_last` return a
position iff one exists. -/
theorem claim_c5_lookup (q key : List Char) (ic : Bool) :
    (pctDecode key = none →
      paramsContains q key ic = Except.error () ∧
      paramsCount q key ic = Except.error () ∧
      paramsFind q key ic = Except.error () ∧
      paramsFindFrom q key ic 0 = Except.error () ∧
      paramsFindLast q key ic = Except.error ()) ∧
    (∀ dk, pctDecode key = some dk →
      paramsContains q key ic =
        Except.ok ((queryParams q).any (keyPred ic dk)) ∧
      ((queryParams q).any (keyPred ic dk) = true ↔
        ∃ kv ∈ queryParams q,
          keyMatches ic dk (keyOfParam kv) = true) ∧
      paramsCount q key ic =
        Except.ok (((queryParams q).filter (keyPred ic dk)).length) ∧
      (0 < ((queryParams q).filter (keyPred ic dk)).length ↔
        (queryParams q).any (keyPred ic dk) = true) ∧
      paramsFind q key ic =
        Except.ok ((queryParams q).findIdx? (keyPred ic dk)) ∧
      ((queryParams q).findIdx? (keyPred ic dk) = none ↔
        (queryParams q).any (keyPred ic dk) = false) ∧
      paramsFindLast q key ic =
        Except.ok (((queryParams q).reverse.findIdx? (keyPred ic dk)).map
          (fun i => (queryParams q).length - 1 - i)) ∧
      ((queryParams q).reverse.findIdx? (keyPred ic dk) = none ↔
        (queryParams q).any (keyPred ic dk) = false)) := by
  constructor
  · intro h
    refine ⟨?_, ?_, ?_, ?_, ?_⟩ <;>
      simp [paramsContains, paramsCount, paramsFind, paramsFindFrom,
        paramsFindLast, h]
  · intro dk hd
    refine ⟨?_, ?_, ?_, ?_, ?_, ?_, ?_, ?_⟩
    · simp [paramsContains, hd]
    · rw [List.any_eq_true]
      simp [keyPred]
    · simp [paramsCount, hd]
    · rw [List.length_pos, List.any_eq_true]
      constructor
      · intro h
        obtain ⟨kv, hkv⟩ := List.exists_mem_of_ne_nil _ h
        have := List.mem_filter.mp hkv
        exact ⟨kv, this.1, this.2⟩
      · intro ⟨kv, hmem, hp⟩
        intro hnil
        have : kv ∈ (queryParams q).filter (keyPred ic dk) :=
          List.mem_filter.mpr ⟨hmem, hp⟩
        simp [hnil] at this
    · simp [paramsFind, hd]
    · rw [List.findIdx?_eq_none_iff, List.any_eq_false]
      simp only [Bool.not_eq_true]
    · simp [paramsFindLast, hd]
    · rw [List.findIdx?_eq_none_iff, List.any_eq_false]
      simp only [Bool.not_eq_true]
      constructor
      · intro h kv hm
        exact h kv (List.mem_reverse.mpr hm)
      · intro h kv hm
        exact h kv (List.mem_reverse.mp hm)

/-- C5 witness: on the query `a=1&b=2` the invalid key `%ZZ` yields a
parse error from `contains`, `count`, `find` and `find_last`, while the
valid key `b` is found. -/
theorem claim_c5_witness :
    paramsContains [ 'a', '=', '1', '&', 'b', '=', '2' ]
      [ '%', 'Z', 'Z' ] false = Except.error () ∧
    paramsFindLast [ 'a', '=', '1', '&', 'b', '=', '2' ]
      [ '%', 'Z', 'Z' ] false = Except.error () ∧
    paramsContains [ 'a', '=', '1', '&', 'b', '=', '2' ]
      [ 'b' ] false = Except.ok true := by
  have h1 := (claim_c5_lookup [ 'a', '=', '1', '&', 'b', '=', '2' ]
    [ '%', 'Z', 'Z' ] false).1 (by decide)
  have h2 := (claim_c5_lookup [ 'a', '=', '1', '&', 'b', '=', '2' ]
    [ 'b' ] false).2 [ 'b' ] (by decide)
  refine ⟨h1.1, h1.2.2.2.2, ?_⟩
  have hb : (queryParams [ 'a', '=', '1', '&', 'b', '=', '2' ]).any
      (keyPred false [ 'b' ]) = true := by decide
  rw [h2.1, hb]

/-- C8: the run-of-charset rule (`token`) never fails — for every input
it succeeds, the matched string is exactly the maximal prefix of
characters belonging to the set (possibly empty), and the cursor is
advanced exactly past that prefix. -/
theorem claim_c8_token (q : Char → Bool) (l : List Char) :
    (tokenParse q l).1 = true ∧
    (tokenParse q l).2.1 ++ (tokenParse q l).2.2 = l ∧
    (∀ c ∈ (tokenParse q l).2.1, q c = true) ∧
    (∀ c r, (tokenParse q l).2.2 = c :: r → q c = false) ∧
    (∀ m, (∃ t, m ++ t = l) → (∀ c ∈ m, q c = true) →
      m.length ≤ (tokenParse q l).2.1.length) := by
  refine ⟨rfl, List.takeWhile_append_dropWhile q l, ?_, ?_, ?_⟩
  · intro c hc
    exact List.mem_takeWhile_imp hc
  · exact dropWhile_head_false q l
  · intro m h1 h2
    exact takeWhile_maximal q m l h1 h2

/-- C8 witness: the token rule on `12a` with the digit set matches `12`,
leaves `a`, and no longer all-digit prefix exists. -/
theorem claim_c8_witness :
    (tokenParse isDigitChar [ '1', '2', 'a' ]).1 = true ∧
    (tokenParse isDigitChar [ '1', '2', 'a' ]).2.1 = [ '1', '2' ] ∧
    2 ≤ (tokenParse isDigitChar [ '1', '2', 'a' ]).2.1.length := by
  have h := claim_c8_token isDigitChar [ '1', '2', 'a' ]
  exact ⟨h.1, by decide,
    h.2.2.2.2 [ '1', '2' ] ⟨[ 'a' ], rfl⟩ (by decide)⟩

/-- C9: the params view is empty iff the URL has no query; a present
query always yields at least one parameter — the empty query is one
parameter — and each `&` introduces one more, so the stored count is the
number of `&`-separated pieces. -/
theorem claim_c9_params (p : ParsedParts) :
    (paramsEmptyB (buildUrl p) = true ↔ hasQuery (buildUrl p) = false) ∧
    (hasQuery (buildUrl p) = true ↔ p.queryStr.isSome = true) ∧
    (∀ q, p.queryStr = some q →
      paramsSizeOf (buildUrl p) = (queryParams q).length ∧
      paramsSizeOf (buildUrl p) = q.count '&' + 1 ∧
      1 ≤ paramsSizeOf (buildUrl p)) ∧
    (p.queryStr = some [] → paramsSizeOf (buildUrl p) = 1) ∧
    (p.queryStr = none → paramsSizeOf (buildUrl p) = 0) := by
  have hlen := buildUrl_lenQuery p
  have hn := buildUrl_nparam p
  refine ⟨?_, ?_, ?_, ?_, ?_⟩
  · simp [paramsEmptyB]
  · cases hq : p.queryStr with
    | some q => simp [hasQuery, hlen, partQuery, hq]
    | none => simp [hasQuery, hlen, partQuery, hq]
  · intro q hq
    have hsz : paramsSizeOf (buildUrl p) = q.count '&' + 1 := by
      rw [paramsSizeOf, hn, hq]
      rfl
    refine ⟨?_, hsz, by omega⟩
    rw [hsz, queryParams, splitOnChar_length]
  · intro hq
    rw [paramsSizeOf, hn, hq]
    rfl
  · intro hq
    rw [paramsSizeOf, hn, hq]

/-- C9 witness: the parameter-count law evaluated at `?k=v&x` (two
parameters), `?` (one parameter, the empty string) and the empty
reference (no query, empty view). -/
theorem claim_c9_witness :
    paramsSizeOf (buildUrl pQueryTwo) = 2 ∧
    paramsSizeOf (buildUrl pQueryEmpty) = 1 ∧
    paramsEmptyB (buildUrl pEmpty) = true := by
  have h1 := ((claim_c9_params pQueryTwo).2.2.1 _ rfl).2.1
  have h2 := (claim_c9_params pQueryEmpty).2.2.2.1 rfl
  have h3 := (claim_c9_params pEmpty).1
  refine ⟨by rw [h1]; decide, h2, h3.mpr (by decide)⟩

set_option maxRecDepth 4096 in
/-- C10: the `sub_delim_chars` predicate holds for exactly the eleven
RFC 3986 sub-delims bytes `! $ & ' ( ) * + , ; =` — the apostrophe
(0x27, written `\x27` in the initializer) included — and for no other
byte. -/
theorem claim_c10_sub_delims :
    ∀ b : Fin 256, sub_delim_chars b.val = true ↔
      b.val ∈ [ 33, 36, 38, 39, 40, 41, 42, 43, 44, 59, 61 ] := by
  decide

end BoostUrl
